import Mathlib

/-!
regexTester: rule evaluation, aggregation and the batch driver

A shallow embedding of `src/main.go`.

Modelling conventions.

* A Go `string` is modelled as `GoString := List Char`, the sequence of its code points
  (the program's strings come from JSON, the command line and text files; the embedding
  covers the well-formed UTF-8 ones).  On such strings the byte-wise search of
  `strings.Contains` and the code-point-wise search coincide.
* The Go standard library is the environment of the program.  `strings.Contains`,
  `strings.HasPrefix`, `strings.TrimSpace`, `strings.Fields`, `strings.Split` and
  `unicode.IsSpace` are given executable models following their documentation.
  `regexp.Compile`, `json.Unmarshal` and `os.ReadFile` are parameters, collected in `World`.
* An `error` value is `Option GoError` (`none` is `nil`).
* Printing is modelled as a list of `Output` events, one per `Printf`/`Println` call, and the
  end of the process by its exit status (`0` when `main` returns, `1` after `log.Fatalf`).
-/

namespace RegexTester

/-! ## Data model (main.go 13-33, 124-127) -/

/-- A Go string, as the list of its code points. -/
abbrev GoString := List Char

/-- Go `type Rule struct`. -/
structure Rule where
  Method : GoString
  Value : GoString
deriving DecidableEq, Repr

/-- Go `type RuleSet struct`. -/
structure RuleSet where
  Name : GoString
  Rules : List Rule
deriving DecidableEq, Repr

/-- Go `type Config struct`. -/
structure Config where
  RuleSets : List RuleSet
deriving DecidableEq, Repr

/-- The error values the program builds with `fmt.Errorf`; `cause` is the wrapped error. -/
inductive GoError where
  /-- The config file could not be read (main.go 38). -/
  | readConfig (cause : GoString)
  /-- The config file could not be unmarshalled (main.go 43). -/
  | parseConfig (cause : GoString)
  /-- The pattern did not compile (main.go 64, 71). -/
  | compileRegex (cause : GoString)
  /-- The method is none of the four supported ones (main.go 80). -/
  | unsupportedMethod (method : GoString)
  /-- The test-case file could not be read (main.go 132). -/
  | readTestCases (cause : GoString)
deriving DecidableEq, Repr

/-- Go `type MatchResult struct`; `Error = none` is Go's `nil`. -/
structure MatchResult where
  RuleName : GoString
  Rule : Rule
  Input : GoString
  Matched : Bool
  Error : Option GoError
deriving DecidableEq, Repr

/-- Go `type TestCase struct`. -/
structure TestCase where
  URL : GoString
  Expect : GoString
deriving DecidableEq, Repr

/-- The environment of the program: the file system and the two library parsers.
A compiled regular expression is represented by its `MatchString` function. -/
structure World where
  /-- Model of `os.ReadFile`. -/
  readFile : GoString → Except GoString GoString
  /-- Model of `json.Unmarshal` into a `[]RuleSet`. -/
  jsonUnmarshal : GoString → Except GoString (List RuleSet)
  /-- Model of `regexp.Compile`, returning the `MatchString` of the compiled expression. -/
  regexpCompile : GoString → Except GoString (GoString → Bool)

/-! ## The `strings` and `unicode` functions the program calls -/

/-- Model of `unicode.IsSpace`: the Latin-1 spaces and the code points of category Z and
property Pattern_White_Space. -/
def unicodeIsSpace (r : Char) : Bool :=
  let n := r.toNat
  n == 0x09 || n == 0x0A || n == 0x0B || n == 0x0C || n == 0x0D || n == 0x20 ||
  n == 0x85 || n == 0xA0 || n == 0x1680 || (0x2000 ≤ n && n ≤ 0x200A) ||
  n == 0x2028 || n == 0x2029 || n == 0x202F || n == 0x205F || n == 0x3000

/-- Model of `strings.HasPrefix(s, p)`. -/
def stringsHasPrefix : GoString → GoString → Bool
  | _, [] => true
  | [], _ :: _ => false
  | c :: s, d :: p => c == d && stringsHasPrefix s p

/-- Model of `strings.Contains(s, substr)`: `substr` is searched at every offset of `s`. -/
def stringsContains : GoString → GoString → Bool
  | [], substr => stringsHasPrefix [] substr
  | c :: s, substr => stringsHasPrefix (c :: s) substr || stringsContains s substr

/-- Model of `strings.TrimSpace(s)`: leading and trailing white space removed. -/
def stringsTrimSpace (s : GoString) : GoString :=
  ((s.dropWhile unicodeIsSpace).reverse.dropWhile unicodeIsSpace).reverse

/-- The scan of `strings.Fields`; `start` is the field being read (`none` outside a field). -/
def fieldsScan : GoString → Option GoString → List GoString
  | [], none => []
  | [], some field => [field]
  | c :: s, none => if unicodeIsSpace c then fieldsScan s none else fieldsScan s (some [c])
  | c :: s, some field =>
    if unicodeIsSpace c then field :: fieldsScan s none else fieldsScan s (some (field ++ [c]))

/-- Model of `strings.Fields(s)`: the maximal runs of non-space code points. -/
def stringsFields (s : GoString) : List GoString :=
  fieldsScan s none

/-- The scan of `strings.Split` for a one-character separator; `cur` is the current piece. -/
def splitScan (sep : Char) : GoString → GoString → List GoString
  | [], cur => [cur]
  | c :: s, cur => if c = sep then cur :: splitScan sep s [] else splitScan sep s (cur ++ [c])

/-- Model of `strings.Split(s, sep)` for a one-character `sep` (the program uses a newline). -/
def stringsSplit (s : GoString) (sep : Char) : List GoString :=
  splitScan sep s []

/-! ## Rule evaluation (main.go 49-111) -/

/-- One pass through the inner loop body of `TestRegex` (main.go 54-81): the result built for
`rule` of the rule set called `name`. -/
def evalRule (w : World) (name : GoString) (rule : Rule) (input : GoString) : MatchResult :=
  let result : MatchResult :=
    { RuleName := name, Rule := rule, Input := input, Matched := false, Error := none }
  if rule.Method = "regex".toList then
    match w.regexpCompile rule.Value with
    | .error err => { result with Error := some (.compileRegex err) }
    | .ok re => { result with Matched := re input }
  else if rule.Method = "not_regex".toList then
    match w.regexpCompile rule.Value with
    | .error err => { result with Error := some (.compileRegex err) }
    | .ok re => { result with Matched := !re input }
  else if rule.Method = "contains".toList then
    { result with Matched := stringsContains input rule.Value }
  else if rule.Method = "not_contains".toList then
    { result with Matched := !stringsContains input rule.Value }
  else
    { result with Error := some (.unsupportedMethod rule.Method) }

/-- Go `func (c *Config) TestRegex(input string) []MatchResult`: the two nested loops, each
pass appending one result. -/
def TestRegex (w : World) (c : Config) (input : GoString) : List MatchResult :=
  c.RuleSets.foldl
    (fun results ruleSet =>
      ruleSet.Rules.foldl
        (fun results rule => results ++ [evalRule w ruleSet.Name rule input]) results)
    []

/-- The loop of `TestAllRules` (main.go 96-104) from the state `(allMatched, hasError)`;
an erroring result sets `hasError` and leaves the loop. -/
def verdictLoop : List MatchResult → Bool × Bool → Bool × Bool
  | [], st => st
  | result :: rest, (allMatched, hasError) =>
    if result.Error ≠ none then (allMatched, true)
    else if !result.Matched then verdictLoop rest (false, hasError)
    else verdictLoop rest (allMatched, hasError)

/-- Go `func (c *Config) TestAllRules(input string) (bool, []MatchResult)`. -/
def TestAllRules (w : World) (c : Config) (input : GoString) : Bool × List MatchResult :=
  let results := TestRegex w c input
  let (allMatched, hasError) := verdictLoop results (true, false)
  if hasError then (false, results) else (allMatched, results)

/-- A result passes when it carries no error and is matched. -/
def MatchResult.passes (r : MatchResult) : Bool :=
  r.Error.isNone && r.Matched

/-- The rules of a configuration, in rule-set order and then declared order. -/
def Config.allRules (c : Config) : List Rule :=
  c.RuleSets.flatMap (fun ruleSet => ruleSet.Rules)

/-! ## Loading (main.go 35-47, 129-156) -/

/-- Go `func LoadConfig(filename string) (*Config, error)`. -/
def LoadConfig (w : World) (filename : GoString) : Except GoError Config :=
  match w.readFile filename with
  | .error err => .error (.readConfig err)
  | .ok data =>
    match w.jsonUnmarshal data with
    | .error err => .error (.parseConfig err)
    | .ok ruleSets => .ok { RuleSets := ruleSets }

/-- One pass through the loop body of `LoadTestCases` (main.go 139-152). -/
def loadLine (testCases : List TestCase) (line : GoString) : List TestCase :=
  let line := stringsTrimSpace line
  if line = [] || stringsHasPrefix line "#".toList then testCases
  else
    let fields := stringsFields line
    if h : fields.length ≥ 2 then testCases ++ [{ URL := fields[0], Expect := fields[1] }]
    else testCases

/-- Go `func LoadTestCases(filename string) ([]TestCase, error)`. -/
def LoadTestCases (w : World) (filename : GoString) : Except GoError (List TestCase) :=
  match w.readFile filename with
  | .error err => .error (.readTestCases err)
  | .ok data => .ok ((stringsSplit data '\n').foldl loadLine [])

/-! ## Reporting (main.go 113-122, 158-305) -/

/-- One event per print statement of the program; the arguments are the values printed. -/
inductive Output where
  /-- Line 114. -/
  | rulesHeader
  /-- Line 116. -/
  | ruleSetName (name : GoString)
  /-- Line 118. -/
  | ruleLine (index : Nat) (method value : GoString)
  /-- Line 120. -/
  | blank
  /-- The help text of `printUsage`, lines 159-170. -/
  | usage
  /-- Line 174. -/
  | singleURL (url : GoString)
  /-- Line 183. -/
  | matchStatus (status : GoString)
  /-- Lines 187 and 244. -/
  | detailHeader
  /-- Lines 195 and 252. -/
  | detailError (ruleName method : GoString) (err : GoError)
  /-- Lines 197 and 254. -/
  | detailStatus (ruleName method status : GoString)
  /-- Line 210. -/
  | loaded (count : Nat)
  /-- Line 212. -/
  | resultsHeader
  /-- Line 217. -/
  | testInput (url : GoString)
  /-- Line 219. -/
  | expected (status : GoString)
  /-- Line 230. -/
  | actual (status : GoString)
  /-- Line 235. -/
  | testPassed
  /-- Line 238. -/
  | testFailed
  /-- Line 260. -/
  | statsHeader
  /-- Line 261. -/
  | total (count : Nat)
  /-- Line 262. -/
  | passedCount (count : Nat)
  /-- Line 263. -/
  | failedCount (count : Nat)
  /-- Line 264: the rate `float64(passed)/float64(total)*100`, kept as its two operands. -/
  | passRate (passed total : Nat)
  /-- Line 267. -/
  | allPassed
  /-- Line 269. -/
  | someFailed (count : Nat)
  /-- The log line of `log.Fatalf` at line 207. -/
  | fatalLoadTestCases (err : GoError)
  /-- The log line of `log.Fatalf` at line 292. -/
  | fatalLoadConfig (err : GoError)
deriving DecidableEq, Repr

/-- How a call ended: it returned to its caller, or it ended the process with a status
(`log.Fatalf` exits with status 1). -/
inductive Ending where
  | returned
  | exited (status : Nat)
deriving DecidableEq, Repr

/-- Go `func (c *Config) PrintRules()`. -/
def PrintRules (c : Config) : List Output :=
  Output.rulesHeader ::
    c.RuleSets.flatMap (fun ruleSet =>
      Output.ruleSetName ruleSet.Name ::
        (ruleSet.Rules.enum.map (fun p => Output.ruleLine (p.1 + 1) p.2.Method p.2.Value)
          ++ [Output.blank]))

/-- Go `func printUsage()`. -/
def printUsage : List Output :=
  [Output.usage]

/-- The label computed at lines 178-181 and 225-228. -/
def actualStatus (allMatched : Bool) : GoString :=
  if allMatched then "匹配".toList else "不匹配".toList

/-- The detail listing of lines 187-199 and 244-256. -/
def printDetails (results : List MatchResult) : List Output :=
  Output.detailHeader ::
    results.map (fun result =>
      let status := if result.Matched then "匹配".toList else "未匹配".toList
      match result.Error with
      | some err => Output.detailError result.RuleName result.Rule.Method err
      | none => Output.detailStatus result.RuleName result.Rule.Method status)

/-- Go `func testSingleURL(config *Config, url string, verbose bool)`. -/
def testSingleURL (w : World) (config : Config) (url : GoString) (verbose : Bool) :
    List Output :=
  let (allMatched, results) := TestAllRules w config url
  [Output.singleURL url, Output.matchStatus (actualStatus allMatched)]
    ++ (if verbose then printDetails results else [])

/-- The variables the batch loop of `testFromFile` updates: what was printed so far and the
two counters. The counters are Go `int`s; a list of test cases is far shorter than `2^63`,
so they are natural numbers here. -/
structure BatchState where
  out : List Output
  passed : Nat
  failed : Nat
deriving DecidableEq, Repr

/-- One pass through the loop body of `testFromFile` (main.go 217-257). -/
def batchStep (w : World) (config : Config) (verbose : Bool) (st : BatchState)
    (testCase : TestCase) : BatchState :=
  let out := st.out ++ [Output.testInput testCase.URL]
    ++ (if verbose then [Output.expected testCase.Expect] else [])
  let (allMatched, results) := TestAllRules w config testCase.URL
  let out := out ++ (if verbose then [Output.actual (actualStatus allMatched)] else [])
  let st : BatchState :=
    if actualStatus allMatched = testCase.Expect then
      { out := out ++ [Output.testPassed], passed := st.passed + 1, failed := st.failed }
    else
      { out := out ++ [Output.testFailed], passed := st.passed, failed := st.failed + 1 }
  if verbose then { st with out := st.out ++ printDetails results } else st

/-- The batch loop of `testFromFile` (main.go 210-258), from `passed = 0`, `failed = 0`. -/
def batchLoop (w : World) (config : Config) (verbose : Bool) (testCases : List TestCase) :
    BatchState :=
  testCases.foldl (batchStep w config verbose)
    { out := [Output.loaded testCases.length, Output.resultsHeader], passed := 0, failed := 0 }

/-- Go `func testFromFile(config *Config, testFile string, verbose bool)`. -/
def testFromFile (w : World) (config : Config) (testFile : GoString) (verbose : Bool) :
    List Output × Ending :=
  match LoadTestCases w testFile with
  | .error err => ([Output.fatalLoadTestCases err], Ending.exited 1)
  | .ok testCases =>
    let st := batchLoop w config verbose testCases
    let out := st.out ++
      [Output.statsHeader, Output.total testCases.length, Output.passedCount st.passed,
        Output.failedCount st.failed, Output.passRate st.passed testCases.length]
    if st.failed = 0 then (out ++ [Output.allPassed], Ending.returned)
    else (out ++ [Output.someFailed st.failed], Ending.returned)

/-- The values of the command-line flags after `flag.Parse()` (main.go 275-281). -/
structure Flags where
  configFile : GoString
  testFile : GoString
  singleURL : GoString
  help : Bool
  verbose : Bool
deriving DecidableEq, Repr

/-- Go `func main()`, from the parsed flags: what the run prints and the exit status of the
process (`0` when `main` returns). -/
def main (w : World) (flags : Flags) : List Output × Nat :=
  if flags.help then (printUsage, 0)
  else
    match LoadConfig w flags.configFile with
    | .error err => ([Output.fatalLoadConfig err], 1)
    | .ok config =>
      let out := PrintRules config
      if flags.singleURL ≠ [] then
        (out ++ testSingleURL w config flags.singleURL flags.verbose, 0)
      else
        match testFromFile w config flags.testFile flags.verbose with
        | (out2, Ending.returned) => (out ++ out2, 0)
        | (out2, Ending.exited status) => (out ++ out2, status)

/-! ## Definitions used to state the properties -/

/-- The test case a line of the test-case file stands for, as the specification words it:
the line is trimmed; a blank line, a line starting with `#` and a line with fewer than two
white-space-delimited fields stand for nothing; otherwise the first field is the URL and
the second the expected label. -/
def lineTestCase (line : GoString) : Option TestCase :=
  let trimmed := stringsTrimSpace line
  if trimmed = [] then none
  else if trimmed.head? = some '#' then none
  else
    match stringsFields trimmed with
    | url :: expect :: _ => some { URL := url, Expect := expect }
    | _ => none

/-- Whether a test case passes: its expected label is the label of the actual verdict. -/
def casePasses (w : World) (config : Config) (testCase : TestCase) : Bool :=
  decide (testCase.Expect = actualStatus (TestAllRules w config testCase.URL).1)

/-- A sample environment: no files, no JSON, and a regular-expression compiler that accepts
exactly the patterns made of letters, digits, `_`, `/`, `-` and `=` (which match as
literals, anywhere in the input) and rejects every other pattern; it agrees with
`regexp.Compile` on the accepted patterns and on the pattern `[`. -/
def sampleWorld : World where
  readFile := fun _ => .error "no such file".toList
  jsonUnmarshal := fun _ => .error "unexpected end of JSON input".toList
  regexpCompile := fun p =>
    if p.all (fun c => c.isAlphanum || c == '_' || c == '/' || c == '-' || c == '=') then
      .ok (fun s => stringsContains s p)
    else .error "error parsing regexp".toList

/-- The text of a configuration file with one rule set `rest` holding one `contains` rule. -/
def sampleConfigText : GoString :=
  "[\x7b\"name\":\"rest\",\"rules\":[\x7b\"method\":\"contains\",\"value\":\"rest\"\x7d]\x7d]".toList

/-- The default flag values of `main` (main.go 275-279). -/
def defaultFlags : Flags where
  configFile := "config.json".toList
  testFile := "test_case.txt".toList
  singleURL := []
  help := false
  verbose := false

/-- A sample environment for batch runs: `config.json` holds `sampleConfigText`, which
unmarshals to its one rule set, and `test_case.txt` holds `tests`. -/
def batchWorld (tests : GoString) : World where
  readFile := fun f =>
    if f = "config.json".toList then .ok sampleConfigText
    else if f = "test_case.txt".toList then .ok tests
    else .error "no such file".toList
  jsonUnmarshal := fun data =>
    if data = sampleConfigText then
      .ok [{ Name := "rest".toList, Rules := [{ Method := "contains".toList, Value := "rest".toList }] }]
    else .error "invalid character".toList
  regexpCompile := sampleWorld.regexpCompile

/-! ## Auxiliary lemmas -/

theorem foldl_append_singleton {α β : Type} (f : α → β) (l : List α) (acc : List β) :
    l.foldl (fun results x => results ++ [f x]) acc = acc ++ l.map f := by
  induction l generalizing acc with
  | nil => simp
  | cons x l ih => simp [ih]

theorem TestRegex_foldl (w : World) (input : GoString) (l : List RuleSet)
    (acc : List MatchResult) :
    l.foldl
      (fun results ruleSet =>
        ruleSet.Rules.foldl
          (fun results rule => results ++ [evalRule w ruleSet.Name rule input]) results)
      acc
    = acc ++ l.flatMap
        (fun ruleSet => ruleSet.Rules.map (fun rule => evalRule w ruleSet.Name rule input)) := by
  induction l generalizing acc with
  | nil => simp
  | cons rs l ih =>
    simp only [List.foldl_cons, List.flatMap_cons]
    rw [ih, foldl_append_singleton, List.append_assoc]

theorem TestRegex_eq_flatMap (w : World) (c : Config) (input : GoString) :
    TestRegex w c input
      = c.RuleSets.flatMap
          (fun ruleSet => ruleSet.Rules.map (fun rule => evalRule w ruleSet.Name rule input)) := by
  unfold TestRegex
  rw [TestRegex_foldl]
  simp

theorem verdictLoop_spec (rs : List MatchResult) (allMatched : Bool) :
    (if (verdictLoop rs (allMatched, false)).2 then false
      else (verdictLoop rs (allMatched, false)).1)
      = (allMatched && rs.all MatchResult.passes) := by
  induction rs generalizing allMatched with
  | nil => simp [verdictLoop]
  | cons r rs ih =>
    unfold verdictLoop
    cases hE : r.Error with
    | some e => simp [MatchResult.passes, hE]
    | none =>
      cases hM : r.Matched with
      | false => simpa [MatchResult.passes, hE, hM] using ih false
      | true => simpa [MatchResult.passes, hE, hM] using ih allMatched

theorem TestAllRules_snd (w : World) (c : Config) (input : GoString) :
    (TestAllRules w c input).2 = TestRegex w c input := by
  unfold TestAllRules
  simp only
  split <;> rfl

theorem TestAllRules_fst (w : World) (c : Config) (input : GoString) :
    (TestAllRules w c input).1 = (TestRegex w c input).all MatchResult.passes := by
  have h := verdictLoop_spec (TestRegex w c input) true
  simp only [Bool.true_and] at h
  rw [← h]
  unfold TestAllRules
  simp only
  split <;> rfl

theorem stringsHasPrefix_iff (s p : GoString) :
    stringsHasPrefix s p = true ↔ ∃ t, s = p ++ t := by
  induction p generalizing s with
  | nil => simp [stringsHasPrefix]
  | cons d p ih =>
    cases s with
    | nil => simp [stringsHasPrefix]
    | cons c s =>
      simp only [stringsHasPrefix, Bool.and_eq_true, beq_iff_eq, ih, List.cons_append,
        List.cons.injEq]
      constructor
      · rintro ⟨rfl, t, rfl⟩
        exact ⟨t, rfl, rfl⟩
      · rintro ⟨t, rfl, rfl⟩
        exact ⟨rfl, t, rfl⟩

theorem stringsContains_iff (s substr : GoString) :
    stringsContains s substr = true ↔ ∃ pre post, s = pre ++ substr ++ post := by
  induction s with
  | nil =>
    simp only [stringsContains, stringsHasPrefix_iff]
    constructor
    · rintro ⟨t, ht⟩
      exact ⟨[], t, by simpa using ht⟩
    · rintro ⟨pre, post, h⟩
      have h1 := congrArg List.length h
      simp only [List.length_nil, List.length_append] at h1
      have hs : substr = [] := List.length_eq_zero.mp (by omega)
      exact ⟨[], by simp [hs]⟩
  | cons c s ih =>
    simp only [stringsContains, Bool.or_eq_true, stringsHasPrefix_iff, ih]
    constructor
    · rintro (⟨t, ht⟩ | ⟨pre, post, h⟩)
      · exact ⟨[], t, by simpa using ht⟩
      · exact ⟨c :: pre, post, by simp [h]⟩
    · rintro ⟨pre, post, h⟩
      cases pre with
      | nil => exact Or.inl ⟨post, by simpa using h⟩
      | cons a pre =>
        simp only [List.cons_append, List.cons.injEq] at h
        exact Or.inr ⟨pre, post, h.2⟩

theorem evalRule_regex (w : World) (name V input : GoString) :
    evalRule w name ⟨"regex".toList, V⟩ input =
      match w.regexpCompile V with
      | .error err =>
        { RuleName := name, Rule := ⟨"regex".toList, V⟩, Input := input, Matched := false,
          Error := some (.compileRegex err) }
      | .ok re =>
        { RuleName := name, Rule := ⟨"regex".toList, V⟩, Input := input, Matched := re input,
          Error := none } := by
  unfold evalRule
  rw [if_pos rfl]

theorem evalRule_not_regex (w : World) (name V input : GoString) :
    evalRule w name ⟨"not_regex".toList, V⟩ input =
      match w.regexpCompile V with
      | .error err =>
        { RuleName := name, Rule := ⟨"not_regex".toList, V⟩, Input := input, Matched := false,
          Error := some (.compileRegex err) }
      | .ok re =>
        { RuleName := name, Rule := ⟨"not_regex".toList, V⟩, Input := input,
          Matched := !re input, Error := none } := by
  have h1 : ("not_regex".toList : GoString) ≠ "regex".toList := by decide
  unfold evalRule
  rw [if_neg h1, if_pos rfl]

theorem evalRule_contains (w : World) (name V input : GoString) :
    evalRule w name ⟨"contains".toList, V⟩ input =
      { RuleName := name, Rule := ⟨"contains".toList, V⟩, Input := input,
        Matched := stringsContains input V, Error := none } := by
  have h1 : ("contains".toList : GoString) ≠ "regex".toList := by decide
  have h2 : ("contains".toList : GoString) ≠ "not_regex".toList := by decide
  unfold evalRule
  rw [if_neg h1, if_neg h2, if_pos rfl]

theorem evalRule_not_contains (w : World) (name V input : GoString) :
    evalRule w name ⟨"not_contains".toList, V⟩ input =
      { RuleName := name, Rule := ⟨"not_contains".toList, V⟩, Input := input,
        Matched := !stringsContains input V, Error := none } := by
  have h1 : ("not_contains".toList : GoString) ≠ "regex".toList := by decide
  have h2 : ("not_contains".toList : GoString) ≠ "not_regex".toList := by decide
  have h3 : ("not_contains".toList : GoString) ≠ "contains".toList := by decide
  unfold evalRule
  rw [if_neg h1, if_neg h2, if_neg h3, if_pos rfl]

theorem evalRule_unsupported (w : World) (name input : GoString) (rule : Rule)
    (h1 : rule.Method ≠ "regex".toList) (h2 : rule.Method ≠ "not_regex".toList)
    (h3 : rule.Method ≠ "contains".toList) (h4 : rule.Method ≠ "not_contains".toList) :
    evalRule w name rule input =
      { RuleName := name, Rule := rule, Input := input, Matched := false,
        Error := some (.unsupportedMethod rule.Method) } := by
  unfold evalRule
  rw [if_neg h1, if_neg h2, if_neg h3, if_neg h4]

theorem evalRule_passes_name (w : World) (name name2 input : GoString) (rule : Rule) :
    (evalRule w name rule input).passes = (evalRule w name2 rule input).passes := by
  unfold evalRule MatchResult.passes
  simp only
  split_ifs <;> first | rfl | (split <;> rfl)

theorem TestAllRules_fst_allRules (w : World) (c : Config) (input : GoString) :
    (TestAllRules w c input).1
      = c.allRules.all (fun rule => (evalRule w [] rule input).passes) := by
  rw [TestAllRules_fst, TestRegex_eq_flatMap, Config.allRules]
  rw [Bool.eq_iff_iff]
  simp only [List.all_eq_true, List.mem_flatMap, List.mem_map]
  constructor
  · rintro h rule ⟨ruleSet, hrs, hrule⟩
    rw [evalRule_passes_name w [] ruleSet.Name]
    exact h _ ⟨ruleSet, hrs, rule, hrule, rfl⟩
  · rintro h r ⟨ruleSet, hrs, rule, hrule, rfl⟩
    rw [evalRule_passes_name w ruleSet.Name []]
    exact h rule ⟨ruleSet, hrs, hrule⟩

theorem TestAllRules_false_of_mem (w : World) (c : Config) (input : GoString) (rule : Rule)
    (hmem : rule ∈ c.allRules) (hfail : (evalRule w [] rule input).passes = false) :
    (TestAllRules w c input).1 = false := by
  rw [TestAllRules_fst_allRules]
  cases h : c.allRules.all (fun rule => (evalRule w [] rule input).passes) with
  | false => rfl
  | true =>
    rw [List.all_eq_true] at h
    have := h rule hmem
    rw [hfail] at this
    exact absurd this (by decide)


/-! ## The verdict and the result list -/

/-- C1: the verdict of `TestAllRules` is true exactly when no returned result carries an
error and every returned result is matched; a configuration without rule sets, or whose
rule sets (named `names`) have no rules, gives true, and one erroring or non-matching result
gives false. -/
theorem TestAllRules_verdict_iff (w : World) (c : Config) (input : GoString)
    (names : List GoString) :
    ((TestAllRules w c input).1 = true ↔
      (∀ r ∈ (TestAllRules w c input).2, r.Error = none) ∧
      (∀ r ∈ (TestAllRules w c input).2, r.Matched = true)) ∧
    (TestAllRules w ⟨[]⟩ input).1 = true ∧
    (TestAllRules w ⟨names.map (fun n => ⟨n, []⟩)⟩ input).1 = true ∧
    ((∃ r ∈ (TestAllRules w c input).2, r.Error ≠ none ∨ r.Matched = false) →
      (TestAllRules w c input).1 = false) := by
  have key : ∀ c : Config, ((TestAllRules w c input).1 = true ↔
      (∀ r ∈ (TestAllRules w c input).2, r.Error = none) ∧
      (∀ r ∈ (TestAllRules w c input).2, r.Matched = true)) := by
    intro c
    rw [TestAllRules_fst, TestAllRules_snd, List.all_eq_true]
    simp only [MatchResult.passes, Bool.and_eq_true, Option.isNone_iff_eq_none]
    exact ⟨fun h => ⟨fun r hr => (h r hr).1, fun r hr => (h r hr).2⟩,
      fun h r hr => ⟨h.1 r hr, h.2 r hr⟩⟩
  refine ⟨key c, ?_, ?_, ?_⟩
  · rw [TestAllRules_fst_allRules]
    rfl
  · rw [TestAllRules_fst_allRules, List.all_eq_true]
    intro rule hrule
    simp [Config.allRules] at hrule
  · rintro ⟨r, hr, hbad⟩
    cases hv : (TestAllRules w c input).1 with
    | false => rfl
    | true =>
      have h := (key c).mp hv
      rcases hbad with hE | hM
      · exact absurd (h.1 r hr) hE
      · rw [h.2 r hr] at hM
        exact absurd hM (by decide)

/-- Witness of C1: an invalid pattern after a matching rule gives the verdict false. -/
theorem TestAllRules_verdict_iff_witness :
    (TestAllRules sampleWorld
      ⟨["auth".toList, "deny".toList].map (fun n => ⟨n, []⟩)⟩ "/api".toList).1 = true ∧
    (TestAllRules sampleWorld
      ⟨[⟨"auth".toList, [⟨"contains".toList, "api".toList⟩, ⟨"regex".toList, "[".toList⟩]⟩]⟩
      "/api".toList).1 = false :=
  ⟨(TestAllRules_verdict_iff sampleWorld ⟨[]⟩ "/api".toList
      ["auth".toList, "deny".toList]).2.2.1,
   (TestAllRules_verdict_iff sampleWorld
      ⟨[⟨"auth".toList, [⟨"contains".toList, "api".toList⟩, ⟨"regex".toList, "[".toList⟩]⟩]⟩
      "/api".toList []).2.2.2 (by decide)⟩

/-- C2: `TestRegex` returns one result per rule, in rule-set order and then declared order,
each carrying the set name, the rule and the input, whatever the rules evaluate to; its
length is the sum of the rule counts, and `TestAllRules` returns this list unchanged. -/
theorem TestRegex_one_result_per_rule (w : World) (c : Config) (input : GoString) :
    (TestAllRules w c input).2 = TestRegex w c input ∧
    TestRegex w c input
      = c.RuleSets.flatMap
          (fun ruleSet => ruleSet.Rules.map (fun rule => evalRule w ruleSet.Name rule input)) ∧
    (TestRegex w c input).length = (c.RuleSets.map (fun ruleSet => ruleSet.Rules.length)).sum ∧
    (TestRegex w c input).map (fun r => (r.RuleName, r.Rule, r.Input))
      = c.RuleSets.flatMap
          (fun ruleSet => ruleSet.Rules.map (fun rule => (ruleSet.Name, rule, input))) := by
  refine ⟨TestAllRules_snd w c input, TestRegex_eq_flatMap w c input, ?_, ?_⟩
  · rw [TestRegex_eq_flatMap, List.length_flatMap]
    simp only [List.length_map, Function.comp_def]
  · rw [TestRegex_eq_flatMap, List.map_flatMap]
    congr 1
    funext ruleSet
    rw [List.map_map]
    congr 1
    funext rule
    simp only [Function.comp]
    unfold evalRule
    simp only
    split_ifs <;> first | rfl | (split <;> rfl)


/-! ## The four methods and the unsupported ones -/

/-- C3: the result of the rule `contains V` on input `I` has no error and is matched exactly
when `I = pre ++ V ++ post` for some `pre` and `post`, compared code point by code point; the
empty `V` matches every input. The result is the one `TestRegex` reports for that rule. -/
theorem contains_matched_iff_substring (w : World) (name V I : GoString) :
    TestRegex w ⟨[⟨name, [⟨"contains".toList, V⟩]⟩]⟩ I
      = [evalRule w name ⟨"contains".toList, V⟩ I] ∧
    (evalRule w name ⟨"contains".toList, V⟩ I).Error = none ∧
    ((evalRule w name ⟨"contains".toList, V⟩ I).Matched = true ↔
      ∃ pre post, I = pre ++ V ++ post) ∧
    (evalRule w name ⟨"contains".toList, []⟩ I).Matched = true := by
  refine ⟨rfl, ?_, ?_, ?_⟩
  · rw [evalRule_contains]
  · rw [evalRule_contains]
    exact stringsContains_iff I V
  · rw [evalRule_contains]
    exact (stringsContains_iff I []).mpr ⟨[], I, rfl⟩

/-- C4: when the value `V` of a `regex` or `not_regex` rule does not compile, the rule's
result is unmatched and carries an error on every input, and every configuration holding
such a rule gets the verdict false. -/
theorem invalid_pattern_is_error (w : World) (V err : GoString)
    (hV : w.regexpCompile V = .error err) :
    (∀ name input,
      (evalRule w name ⟨"regex".toList, V⟩ input).Matched = false ∧
      (evalRule w name ⟨"regex".toList, V⟩ input).Error ≠ none ∧
      (evalRule w name ⟨"not_regex".toList, V⟩ input).Matched = false ∧
      (evalRule w name ⟨"not_regex".toList, V⟩ input).Error ≠ none) ∧
    (∀ (c : Config) (input : GoString),
      (⟨"regex".toList, V⟩ ∈ c.allRules ∨ ⟨"not_regex".toList, V⟩ ∈ c.allRules) →
      (TestAllRules w c input).1 = false) := by
  constructor
  · intro name input
    rw [evalRule_regex, evalRule_not_regex, hV]
    simp
  · rintro c input (h | h)
    · refine TestAllRules_false_of_mem w c input _ h ?_
      rw [evalRule_regex, hV]
      rfl
    · refine TestAllRules_false_of_mem w c input _ h ?_
      rw [evalRule_not_regex, hV]
      rfl

/-- Witness of C4: the pattern `[` does not compile in the sample environment. -/
theorem invalid_pattern_is_error_witness :
    sampleWorld.regexpCompile "[".toList = .error "error parsing regexp".toList ∧
    (evalRule sampleWorld "auth".toList ⟨"not_regex".toList, "[".toList⟩ "/api".toList).Matched
      = false ∧
    (TestAllRules sampleWorld
      ⟨[⟨"auth".toList, [⟨"contains".toList, "api".toList⟩]⟩,
        ⟨"deny".toList, [⟨"not_regex".toList, "[".toList⟩]⟩]⟩ "/api".toList).1 = false :=
  ⟨by rfl,
   ((invalid_pattern_is_error sampleWorld "[".toList "error parsing regexp".toList
      (by rfl)).1 "auth".toList "/api".toList).2.2.1,
   (invalid_pattern_is_error sampleWorld "[".toList "error parsing regexp".toList (by rfl)).2
      _ _ (Or.inr (by decide))⟩

/-- C5: a rule whose method is none of `regex`, `not_regex`, `contains`, `not_contains` gives,
for every value and input, an unmatched result carrying the unsupported-method error, and
every configuration holding such a rule gets the verdict false. -/
theorem unsupported_method_is_error (w : World) (rule : Rule)
    (h1 : rule.Method ≠ "regex".toList) (h2 : rule.Method ≠ "not_regex".toList)
    (h3 : rule.Method ≠ "contains".toList) (h4 : rule.Method ≠ "not_contains".toList) :
    (∀ name input,
      (evalRule w name rule input).Matched = false ∧
      (evalRule w name rule input).Error = some (.unsupportedMethod rule.Method)) ∧
    (∀ (c : Config) (input : GoString), rule ∈ c.allRules →
      (TestAllRules w c input).1 = false) := by
  constructor
  · intro name input
    rw [evalRule_unsupported w name input rule h1 h2 h3 h4]
    exact ⟨rfl, rfl⟩
  · intro c input h
    refine TestAllRules_false_of_mem w c input rule h ?_
    rw [evalRule_unsupported w [] input rule h1 h2 h3 h4]
    rfl

/-- Witness of C5: the method `Regex` (capital R) and the empty method are unsupported. -/
theorem unsupported_method_is_error_witness :
    (evalRule sampleWorld "auth".toList ⟨"Regex".toList, "api".toList⟩ "/api".toList).Error
      = some (.unsupportedMethod "Regex".toList) ∧
    (TestAllRules sampleWorld
      ⟨[⟨"auth".toList, [⟨"contains".toList, "api".toList⟩, ⟨[], "api".toList⟩]⟩]⟩
      "/api".toList).1 = false :=
  ⟨((unsupported_method_is_error sampleWorld ⟨"Regex".toList, "api".toList⟩
      (by decide) (by decide) (by decide) (by decide)).1 "auth".toList "/api".toList).2,
   (unsupported_method_is_error sampleWorld ⟨[], "api".toList⟩
      (by decide) (by decide) (by decide) (by decide)).2 _ _ (by decide)⟩

/-- C6: on every value and input the `not_contains` result is matched exactly when the
`contains` result is not, and when the value compiles the `not_regex` result is matched
exactly when the `regex` result is not; none of the four results carries an error. -/
theorem negated_methods_negate (w : World) (name V I : GoString) :
    ((evalRule w name ⟨"not_contains".toList, V⟩ I).Matched
      = !(evalRule w name ⟨"contains".toList, V⟩ I).Matched) ∧
    (evalRule w name ⟨"not_contains".toList, V⟩ I).Error = none ∧
    (evalRule w name ⟨"contains".toList, V⟩ I).Error = none ∧
    (∀ re, w.regexpCompile V = .ok re →
      ((evalRule w name ⟨"not_regex".toList, V⟩ I).Matched
        = !(evalRule w name ⟨"regex".toList, V⟩ I).Matched) ∧
      (evalRule w name ⟨"not_regex".toList, V⟩ I).Error = none ∧
      (evalRule w name ⟨"regex".toList, V⟩ I).Error = none) := by
  refine ⟨?_, ?_, ?_, ?_⟩
  · rw [evalRule_not_contains, evalRule_contains]
  · rw [evalRule_not_contains]
  · rw [evalRule_contains]
  · intro re hre
    rw [evalRule_not_regex, evalRule_regex, hre]
    exact ⟨rfl, rfl, rfl⟩

/-- Witness of C6: the pattern `api` compiles in the sample environment. -/
theorem negated_methods_negate_witness :
    (evalRule sampleWorld "auth".toList ⟨"not_regex".toList, "api".toList⟩ "/api".toList).Matched
      = !(evalRule sampleWorld "auth".toList ⟨"regex".toList, "api".toList⟩ "/api".toList).Matched :=
  ((negated_methods_negate sampleWorld "auth".toList "api".toList "/api".toList).2.2.2
    (fun s => stringsContains s "api".toList) (by rfl)).1

/-- C7: two configurations whose rules, read set by set, are permutations of each other get
the same verdict on every input, whatever the set names and boundaries. -/
theorem verdict_perm_invariant (w : World) (c₁ c₂ : Config) (input : GoString)
    (h : c₁.allRules.Perm c₂.allRules) :
    (TestAllRules w c₁ input).1 = (TestAllRules w c₂ input).1 := by
  rw [TestAllRules_fst_allRules, TestAllRules_fst_allRules, Bool.eq_iff_iff]
  simp only [List.all_eq_true]
  exact ⟨fun hall rule hr => hall rule (h.mem_iff.mpr hr),
    fun hall rule hr => hall rule (h.mem_iff.mp hr)⟩

/-- Witness of C7: an erroring rule first in one set, or last in another set. -/
theorem verdict_perm_invariant_witness :
    (TestAllRules sampleWorld
      ⟨[⟨"a".toList, [⟨"regex".toList, "[".toList⟩, ⟨"contains".toList, "x".toList⟩]⟩]⟩
      "/api".toList).1
    = (TestAllRules sampleWorld
      ⟨[⟨"b".toList, [⟨"contains".toList, "x".toList⟩]⟩,
        ⟨"c".toList, [⟨"regex".toList, "[".toList⟩]⟩]⟩ "/api".toList).1 :=
  verdict_perm_invariant sampleWorld _ _ _ (List.Perm.swap _ _ [])



/-! ## The library models -/

theorem fieldsScan_mem (s : GoString) (start : Option GoString)
    (hstart : ∀ field, start = some field → field ≠ [] ∧ ∀ c ∈ field, unicodeIsSpace c = false)
    (f : GoString) (hf : f ∈ fieldsScan s start) :
    f ≠ [] ∧ ∀ c ∈ f, unicodeIsSpace c = false := by
  induction s generalizing start with
  | nil =>
    cases start with
    | none => simp [fieldsScan] at hf
    | some field =>
      simp only [fieldsScan, List.mem_singleton] at hf
      exact hf ▸ hstart field rfl
  | cons c s ih =>
    cases start with
    | none =>
      simp only [fieldsScan] at hf
      split_ifs at hf with hc
      · exact ih none (fun _ h => by cases h) hf
      · refine ih (some [c]) ?_ hf
        intro field h
        cases h
        exact ⟨by simp, by simpa using hc⟩
    | some field =>
      simp only [fieldsScan] at hf
      split_ifs at hf with hc
      · rcases List.mem_cons.mp hf with h | h
        · exact h ▸ hstart field rfl
        · exact ih none (fun _ h => by cases h) h
      · refine ih (some (field ++ [c])) ?_ hf
        intro field2 h
        cases h
        refine ⟨by simp, ?_⟩
        intro d hd
        rcases List.mem_append.mp hd with h | h
        · exact (hstart field rfl).2 d h
        · simp only [List.mem_singleton] at h
          subst h
          simpa using hc

theorem stringsFields_mem (s f : GoString) (hf : f ∈ stringsFields s) :
    f ≠ [] ∧ ∀ c ∈ f, unicodeIsSpace c = false :=
  fieldsScan_mem s none (fun _ h => by cases h) f hf

theorem splitScan_ne_nil (sep : Char) (s cur : GoString) : splitScan sep s cur ≠ [] := by
  induction s generalizing cur with
  | nil => simp [splitScan]
  | cons c s ih =>
    simp only [splitScan]
    split_ifs
    · simp
    · exact ih _

theorem splitScan_intercalate (sep : Char) (s cur : GoString) :
    List.intercalate [sep] (splitScan sep s cur) = cur ++ s := by
  induction s generalizing cur with
  | nil => simp [splitScan, List.intercalate]
  | cons c s ih =>
    simp only [splitScan]
    split_ifs with hc
    · have h := ih []
      rcases hs : splitScan sep s [] with _ | ⟨p, ps⟩
      · exact absurd hs (splitScan_ne_nil sep s [])
      · rw [hs] at h
        subst hc
        simp only [List.intercalate, List.intersperse, List.flatten, List.nil_append] at h ⊢
        simp [← h]
    · rw [ih]
      simp

theorem stringsSplit_intercalate (s : GoString) (sep : Char) :
    List.intercalate [sep] (stringsSplit s sep) = s := by
  unfold stringsSplit
  rw [splitScan_intercalate]
  rfl

theorem head_dropWhile_isSpace (s : GoString) (c : Char)
    (h : (s.dropWhile unicodeIsSpace).head? = some c) : unicodeIsSpace c = false := by
  have := List.head?_dropWhile_not unicodeIsSpace s
  rw [h] at this
  simpa using this

theorem stringsTrimSpace_ends (s : GoString) (c : Char) :
    ((stringsTrimSpace s).head? = some c → unicodeIsSpace c = false) ∧
    ((stringsTrimSpace s).getLast? = some c → unicodeIsSpace c = false) := by
  unfold stringsTrimSpace
  constructor
  · intro h
    rw [List.head?_reverse] at h
    set t := s.dropWhile unicodeIsSpace with ht
    have hsuf : (t.reverse.dropWhile unicodeIsSpace) <:+ t.reverse :=
      List.dropWhile_suffix _
    by_cases hnil : t.reverse.dropWhile unicodeIsSpace = []
    · rw [hnil] at h
      simp at h
    · have hl : t.reverse.getLast? = some c := by
        obtain ⟨pre, hpre⟩ := hsuf
        rw [← hpre, List.getLast?_append, h]
        rfl
      rw [List.getLast?_reverse] at hl
      exact head_dropWhile_isSpace s c hl
  · intro h
    rw [List.getLast?_reverse] at h
    exact head_dropWhile_isSpace _ c h

/-! ## The test-case file -/

theorem fields_case_eq (testCases : List TestCase) (fields : List GoString) :
    (if h : fields.length ≥ 2 then testCases ++ [{ URL := fields[0], Expect := fields[1] }]
      else testCases)
    = testCases ++
        (match fields with
          | url :: expect :: _ => some { URL := url, Expect := expect }
          | _ => none : Option TestCase).toList := by
  rcases fields with _ | ⟨a, _ | ⟨b, rest⟩⟩ <;> simp

theorem stringsHasPrefix_hash (s : GoString) :
    stringsHasPrefix s "#".toList = decide (s.head? = some '#') := by
  cases s with
  | nil => rfl
  | cons c t =>
    show stringsHasPrefix (c :: t) ['#'] = _
    simp only [stringsHasPrefix, Bool.and_true, List.head?_cons, Option.some.injEq]
    by_cases hc : c = '#' <;> simp [hc]

theorem loadLine_eq (testCases : List TestCase) (line : GoString) :
    loadLine testCases line = testCases ++ (lineTestCase line).toList := by
  unfold loadLine lineTestCase
  simp only [stringsHasPrefix_hash, fields_case_eq]
  by_cases h0 : stringsTrimSpace line = []
  · simp [h0]
  · by_cases h1 : (stringsTrimSpace line).head? = some '#'
    · simp [h0, h1]
    · simp [h0, h1]

theorem foldl_loadLine (lines : List GoString) (acc : List TestCase) :
    lines.foldl loadLine acc = acc ++ lines.filterMap lineTestCase := by
  induction lines generalizing acc with
  | nil => simp
  | cons line lines ih =>
    rw [List.foldl_cons, ih, loadLine_eq]
    cases h : lineTestCase line <;> simp [List.filterMap_cons, h]

/-- C9: when the test-case file reads as `data`, `LoadTestCases` returns, without error and in
line order, the test case of every line of `data` that stands for one: the line, trimmed, is
not empty, does not start with `#` and has at least two white-space-delimited fields, of which
the first is the URL and the second the expected label. -/
theorem LoadTestCases_eq_lines (w : World) (filename data : GoString)
    (hread : w.readFile filename = .ok data) :
    LoadTestCases w filename = .ok ((stringsSplit data '\n').filterMap lineTestCase) := by
  unfold LoadTestCases
  rw [hread]
  simp only
  rw [foldl_loadLine, List.nil_append]

/-- Witness of C9: a file with a comment, a blank line, a one-field line, a line with three
fields and a line ending in a carriage return. -/
theorem LoadTestCases_eq_lines_witness :
    LoadTestCases (batchWorld "# c\n\n/x\n  /api 匹配 extra\n/rest/p\t不匹配\r\n".toList)
      "test_case.txt".toList
    = .ok [⟨"/api".toList, "匹配".toList⟩, ⟨"/rest/p".toList, "不匹配".toList⟩] :=
  (LoadTestCases_eq_lines _ "test_case.txt".toList
    "# c\n\n/x\n  /api 匹配 extra\n/rest/p\t不匹配\r\n".toList (by rfl)).trans (congrArg Except.ok (by decide))


/-! ## The batch run -/

theorem batchStep_counts (w : World) (config : Config) (verbose : Bool) (st : BatchState)
    (testCase : TestCase) :
    (batchStep w config verbose st testCase).passed
      = st.passed + (if casePasses w config testCase then 1 else 0) ∧
    (batchStep w config verbose st testCase).failed
      = st.failed + (if casePasses w config testCase then 0 else 1) := by
  unfold batchStep casePasses
  rcases TestAllRules w config testCase.URL with ⟨allMatched, results⟩
  simp only [eq_comm (a := testCase.Expect)]
  by_cases h : actualStatus allMatched = testCase.Expect
  · cases verbose <;> simp [if_pos h]
  · cases verbose <;> simp [if_neg h]

theorem foldl_batchStep_counts (w : World) (config : Config) (verbose : Bool)
    (testCases : List TestCase) (st : BatchState) :
    (testCases.foldl (batchStep w config verbose) st).passed
      = st.passed + (testCases.filter (casePasses w config)).length ∧
    (testCases.foldl (batchStep w config verbose) st).failed
      = st.failed + (testCases.filter (fun tc => !casePasses w config tc)).length := by
  induction testCases generalizing st with
  | nil => simp
  | cons tc rest ih =>
    rw [List.foldl_cons]
    obtain ⟨hp, hf⟩ := ih (batchStep w config verbose st tc)
    obtain ⟨sp, sf⟩ := batchStep_counts w config verbose st tc
    rw [hp, hf, sp, sf]
    cases hc : casePasses w config tc <;> simp [List.filter_cons, hc] <;> omega

theorem batchLoop_passed (w : World) (config : Config) (verbose : Bool)
    (testCases : List TestCase) :
    (batchLoop w config verbose testCases).passed
      = (testCases.filter (casePasses w config)).length := by
  unfold batchLoop
  rw [(foldl_batchStep_counts w config verbose testCases _).1]
  simp

theorem batchLoop_failed (w : World) (config : Config) (verbose : Bool)
    (testCases : List TestCase) :
    (batchLoop w config verbose testCases).failed
      = (testCases.filter (fun tc => !casePasses w config tc)).length := by
  unfold batchLoop
  rw [(foldl_batchStep_counts w config verbose testCases _).2]
  simp

theorem filter_pass_fail_length (w : World) (config : Config) (testCases : List TestCase) :
    (testCases.filter (casePasses w config)).length
      + (testCases.filter (fun tc => !casePasses w config tc)).length = testCases.length := by
  induction testCases with
  | nil => rfl
  | cons tc rest ih =>
    cases hc : casePasses w config tc <;> simp [List.filter_cons, hc] <;> omega

/-- C10: the batch loop counts a test case as passed exactly when its expected label is the
label of the actual verdict and as failed otherwise, so the two counters add up to the
number of test cases, and `testFromFile` prints these counters; a single case expecting
`不匹配` whose verdict is true is counted as failed. -/
theorem batchLoop_counts (w : World) (config : Config) (verbose : Bool)
    (testCases : List TestCase) :
    (batchLoop w config verbose testCases).passed
      = (testCases.filter (fun tc =>
          decide (tc.Expect = (if (TestAllRules w config tc.URL).1 then "匹配".toList
            else "不匹配".toList)))).length ∧
    (batchLoop w config verbose testCases).failed
      = (testCases.filter (fun tc =>
          decide (tc.Expect ≠ (if (TestAllRules w config tc.URL).1 then "匹配".toList
            else "不匹配".toList)))).length ∧
    (batchLoop w config verbose testCases).passed + (batchLoop w config verbose testCases).failed
      = testCases.length ∧
    (∀ testFile, LoadTestCases w testFile = .ok testCases →
      ∃ pre last, (testFromFile w config testFile verbose).1
        = pre ++ [Output.total testCases.length,
            Output.passedCount (batchLoop w config verbose testCases).passed,
            Output.failedCount (batchLoop w config verbose testCases).failed,
            Output.passRate (batchLoop w config verbose testCases).passed testCases.length,
            last]) ∧
    (∀ url, (TestAllRules w config url).1 = true →
      (batchLoop w config verbose [⟨url, "不匹配".toList⟩]).failed = 1 ∧
      (batchLoop w config verbose [⟨url, "不匹配".toList⟩]).passed = 0) := by
  refine ⟨?_, ?_, ?_, ?_, ?_⟩
  · rw [batchLoop_passed]
    rfl
  · rw [batchLoop_failed]
    congr 1
    congr 1
    funext tc
    simp [casePasses, actualStatus]
  · rw [batchLoop_passed, batchLoop_failed]
    exact filter_pass_fail_length w config testCases
  · intro testFile hload
    unfold testFromFile
    rw [hload]
    simp only
    split_ifs
    · exact ⟨(batchLoop w config verbose testCases).out ++ [Output.statsHeader],
        Output.allPassed, by simp⟩
    · exact ⟨(batchLoop w config verbose testCases).out ++ [Output.statsHeader],
        Output.someFailed (batchLoop w config verbose testCases).failed, by simp⟩
  · intro url hurl
    rw [batchLoop_passed, batchLoop_failed]
    simp [casePasses, actualStatus, hurl]

/-- Witness of C10: the line `/rest/products 不匹配` against the rule `contains rest`. -/
theorem batchLoop_counts_witness :
    (TestAllRules sampleWorld
      ⟨[⟨"rest".toList, [⟨"contains".toList, "rest".toList⟩]⟩]⟩ "/rest/products".toList).1 = true ∧
    (batchLoop sampleWorld ⟨[⟨"rest".toList, [⟨"contains".toList, "rest".toList⟩]⟩]⟩ false
      [⟨"/rest/products".toList, "不匹配".toList⟩]).failed = 1 :=
  ⟨by decide,
   ((batchLoop_counts sampleWorld ⟨[⟨"rest".toList, [⟨"contains".toList, "rest".toList⟩]⟩]⟩
      false []).2.2.2.2 "/rest/products".toList (by decide)).1⟩


theorem main_batch (w : World) (flags : Flags) (config : Config) (testCases : List TestCase)
    (hhelp : flags.help = false) (hconfig : LoadConfig w flags.configFile = .ok config)
    (hbatch : flags.singleURL = [])
    (hcases : LoadTestCases w flags.testFile = .ok testCases) :
    (main w flags).2 = 0 ∧
    (main w flags).1.getLast?
      = some (if (batchLoop w config flags.verbose testCases).failed = 0 then Output.allPassed
          else Output.someFailed (batchLoop w config flags.verbose testCases).failed) := by
  unfold main testFromFile
  rw [hhelp, hconfig, hcases]
  simp only [hbatch, ne_eq, not_true_eq_false, if_false, Bool.false_eq_true]
  by_cases hf : (batchLoop w config flags.verbose testCases).failed = 0
  · simp only [hf, if_true]
    refine ⟨trivial, ?_⟩
    rw [← List.append_assoc, List.getLast?_append]
    rfl
  · simp only [hf, if_false]
    refine ⟨trivial, ?_⟩
    rw [← List.append_assoc, List.getLast?_append]
    rfl

/-- Counterexample to C8: with the rule `contains rest`, the batch run on the line
`/rest/products 不匹配` has one failed case and the run on `/rest/products 匹配` has none, and
both runs end with the same exit status, 0. -/
theorem batch_exit_status_counterexample :
    (main (batchWorld "/rest/products 不匹配\n".toList) defaultFlags).1.getLast?
      = some (Output.someFailed 1) ∧
    (main (batchWorld "/rest/products 匹配\n".toList) defaultFlags).1.getLast?
      = some Output.allPassed ∧
    (main (batchWorld "/rest/products 不匹配\n".toList) defaultFlags).2 = 0 ∧
    (main (batchWorld "/rest/products 匹配\n".toList) defaultFlags).2 = 0 := by
  decide

/-- C8, amended: in a batch run whose configuration and test-case file load, the exit status
is 0 whether or not a test case fails; when at least one case fails the last line printed
reports the number of failed cases, which is at least 1, and when every case passes the last
line printed is the all-passed line. -/
theorem batch_failure_reported_not_signalled (w : World) (flags : Flags) (config : Config)
    (testCases : List TestCase)
    (hhelp : flags.help = false) (hconfig : LoadConfig w flags.configFile = .ok config)
    (hbatch : flags.singleURL = [])
    (hcases : LoadTestCases w flags.testFile = .ok testCases) :
    (main w flags).2 = 0 ∧
    ((∃ tc ∈ testCases, tc.Expect ≠ actualStatus (TestAllRules w config tc.URL).1) →
      0 < (testCases.filter (fun tc => !casePasses w config tc)).length ∧
      (main w flags).1.getLast?
        = some (Output.someFailed
            (testCases.filter (fun tc => !casePasses w config tc)).length)) ∧
    ((∀ tc ∈ testCases, tc.Expect = actualStatus (TestAllRules w config tc.URL).1) →
      (main w flags).1.getLast? = some Output.allPassed) := by
  obtain ⟨hstatus, hlast⟩ := main_batch w flags config testCases hhelp hconfig hbatch hcases
  rw [batchLoop_failed] at hlast
  refine ⟨hstatus, ?_, ?_⟩
  · rintro ⟨tc, htc, hne⟩
    have hpos : 0 < (testCases.filter (fun tc => !casePasses w config tc)).length := by
      apply List.length_pos_of_mem (a := tc)
      rw [List.mem_filter]
      exact ⟨htc, by simp [casePasses, hne]⟩
    refine ⟨hpos, ?_⟩
    rw [hlast, if_neg (by omega)]
  · intro hall
    have hzero : (testCases.filter (fun tc => !casePasses w config tc)).length = 0 := by
      rw [List.length_eq_zero, List.filter_eq_nil_iff]
      intro tc htc
      simp [casePasses, hall tc htc]
    rw [hlast, if_pos hzero]

/-- Witness of C8 amended: the default batch run on the line `/rest/products 不匹配`. -/
theorem batch_failure_reported_not_signalled_witness :
    (main (batchWorld "/rest/products 不匹配\n".toList) defaultFlags).2 = 0 ∧
    (main (batchWorld "/rest/products 不匹配\n".toList) defaultFlags).1.getLast?
      = some (Output.someFailed 1) :=
  ⟨(batch_failure_reported_not_signalled (batchWorld "/rest/products 不匹配\n".toList)
      defaultFlags ⟨[⟨"rest".toList, [⟨"contains".toList, "rest".toList⟩]⟩]⟩
      [⟨"/rest/products".toList, "不匹配".toList⟩] rfl (by rfl) rfl (by rfl)).1,
   ((batch_failure_reported_not_signalled (batchWorld "/rest/products 不匹配\n".toList)
      defaultFlags ⟨[⟨"rest".toList, [⟨"contains".toList, "rest".toList⟩]⟩]⟩
      [⟨"/rest/products".toList, "不匹配".toList⟩] rfl (by rfl) rfl (by rfl)).2.1
      (by decide)).2⟩

end RegexTester
